import Mathlib

/-!
# Verification of the Pickleball round-robin scheduler

A shallow embedding of the scheduling pipeline from `Pickleball.ipynb`:

* `all_pairs P`         — all partner pairs of players `1..P` in lexicographic order;
* `games_from_pairs`    — backtracking combination of pairs into 4-player games
                          (`none` models the Python `None` failure value);
* `schedule_games`      — greedy first-fit packing of games into rounds of at most
                          `C` games with disjoint players;
* `tournament`          — the deterministic pipeline (`Option` models definedness:
                          in Python, feeding `None` into `schedule_games` raises an
                          uncaught `TypeError`, so a `none` result marks a run that
                          crashes rather than returning a schedule);
* `total_difference`, `is_optimal` — the optimizer's metrics;
* `stepOpt` / `runOpt` / `tournament2` — the hillclimbing optimizer, with the
  pseudo-random draws (`random.sample` and `side()`) modelled as an explicit
  stream of `Choice` values, one per loop iteration (`tries = chs.length`).

Nats, pairs, games, rounds and schedules follow the notebook's types:
a pair is an ordered 2-tuple, a game a 2-tuple of pairs (side 0 and side 1),
a round a list of games, a schedule a list of rounds.
-/

namespace Pickleball

/-- A pair of partners, as the notebook's 2-tuple `(p1, p2)`. -/
abbrev Pair := Nat × Nat

/-- A game: two pairs facing each other (the notebook's 2-element list). -/
abbrev Game := Pair × Pair

abbrev Round := List Game

abbrev Schedule := List Round

/-- The Python `set(pair)`: the set of players of a pair. -/
def pset (p : Pair) : Finset Nat := {p.1, p.2}

/-- `players(game)`: the set of players of a game. -/
def playersGame (g : Game) : Finset Nat := pset g.1 ∪ pset g.2

/-- `players(round)`: the set of players of a round. -/
def playersRound (r : Round) : Finset Nat :=
  r.foldr (fun g acc => playersGame g ∪ acc) ∅

/-- `len(set(pair1 + pair2))`: how many distinct players two pairs hold. -/
def num_players2 (p q : Pair) : Nat := (pset p ∪ pset q).card

/-- `all_pairs(P) = list(combinations(range(1, P + 1), 2))`:
all partner pairs `(i, j)` with `1 ≤ i < j ≤ P`, lexicographically. -/
def all_pairs (P : Nat) : List Pair :=
  (List.range' 1 P).flatMap fun i =>
    (List.range' (i + 1) (P - i)).map fun j => (i, j)

/-- The recursion of `games_from_pairs`, with an explicit structural bound
`fuel` on the recursion depth.  Each recursive call removes the two chosen
pairs from the list, so any `fuel ≥ pairs.length` (the top level passes
exactly `pairs.length`) keeps the fuel branch unreachable and the function
equal to the notebook's unbounded recursion. -/
def gfpAux : Nat → List Pair → Option (List Game)
  | _, [] => some []
  | _, [_] => some []
  | 0, _ :: _ :: _ => none
  | fuel + 1, pair1 :: rest =>
      (pair1 :: rest).findSome? fun pair2 =>
        if num_players2 pair1 pair2 = 4 then
          (gfpAux fuel
              ((pair1 :: rest).filter fun p => !(p == pair1) && !(p == pair2))).map
            fun gs => ((pair1, pair2) : Game) :: gs
        else none

/-- `games_from_pairs(pairs)`: combine pairs into games by backtracking; take
the first pair as one side, try each remaining pair as the disjoint other
side, recurse on the rest, and return `None` (`none`) when no choice works.
Fewer than two remaining pairs are silently dropped. -/
def games_from_pairs (pairs : List Pair) : Option (List Game) :=
  gfpAux pairs.length pairs

/-- One step of the greedy scheduler: place `game` into the first round with
fewer than `C` games and no shared player, else open a new round at the end. -/
def addGame (C : Nat) (sched : Schedule) (game : Game) : Schedule :=
  match sched with
  | [] => [[game]]
  | r :: rs =>
      if r.length < C ∧ playersRound r ∩ playersGame game = ∅ then
        (r ++ [game]) :: rs
      else
        r :: addGame C rs game

/-- `schedule_games(games, C)`: first-fit packing of the games, in order. -/
def schedule_games (games : List Game) (C : Nat) : Schedule :=
  games.foldl (addGame C) []

/-- `tournament(P, C) = schedule_games(games_from_pairs(all_pairs(P)), C)`.
`none` marks the run that crashes in Python (a `None` game list reaches
`schedule_games`, which raises `TypeError`); the source has no handling
branch for that case. -/
def tournament (P : Nat) (C : Nat) : Option Schedule :=
  (games_from_pairs (all_pairs P)).map fun games => schedule_games games C

/-- `pairing(p1, p2) = tuple(sorted((p1, p2)))`. -/
def pairing (p1 p2 : Nat) : Pair :=
  if p1 ≤ p2 then (p1, p2) else (p2, p1)

/-- The stream of opponent pairings generated by `opponent_counts(games)`:
one entry per (player on side A, player on side B) encounter.  The Python
`Counter` is the multiset of this list; `count` on it recovers the table. -/
def opponents (games : List Game) : List Pair :=
  games.flatMap fun g =>
    [pairing g.1.1 g.2.1, pairing g.1.1 g.2.2,
     pairing g.1.2 g.2.1, pairing g.1.2 g.2.2]

/-- `total_difference(games, optimal=2)` at the default `optimal = 2`:
the sum of `abs(count - 2) ** 3` over the values of the opponent `Counter`,
i.e. over the distinct pairings that occur at least once. -/
def total_difference (games : List Game) : Nat :=
  ((opponents games).dedup.map fun q =>
    (Int.natAbs (((opponents games).count q : Int) - 2)) ^ 3).sum

/-- `is_optimal(schedule, diff, P, C)`.  `math.ceil(P*(P-1)/4/C)` is modelled
by the exact natural ceiling `⌈P(P-1)/(4C)⌉`; for the magnitudes involved the
Python float quotient is within `1/(4C)` of the true rational, so its ceiling
agrees.  (`C = 0` would raise `ZeroDivisionError` in Python; no claim
evaluates `is_optimal` there.) -/
def is_optimal (schedule : Schedule) (diff : Nat) (P C : Nat) : Bool :=
  diff == 0 && schedule.length == (P * (P - 1) + (4 * C - 1)) / (4 * C)

/-- Side 0 (`false`) or side 1 (`true`) of a game: `game[s]`. -/
def getSide (g : Game) (s : Bool) : Pair := if s then g.2 else g.1

/-- Replace side `s` of a game: `game[s] = p`. -/
def setSide (g : Game) (s : Bool) (p : Pair) : Game :=
  if s then (g.1, p) else (p, g.2)

/-- Placeholder for out-of-range indexing (never reached on valid indices). -/
def defaultGame : Game := ((0, 0), (0, 0))

/-- `swap(games, ((g1, g2), (s1, s2)))`: exchange the pair on side `s1` of
game `i` with the pair on side `s2` of game `j` (Python's simultaneous
assignment reads both old values first). -/
def swapList (games : List Game) (i j : Nat) (s1 s2 : Bool) : List Game :=
  let gi := games.getD i defaultGame
  let games1 := games.set i (setSide gi s1 (getSide (games.getD j defaultGame) s2))
  games1.set j (setSide (games1.getD j defaultGame) s2 (getSide gi s1))

/-- One iteration's random draws: `random.sample(range(len(games)), 2)`
yields the distinct game indices `i ≠ j`, and two `side()` calls yield
`s1`, `s2`. -/
structure Choice where
  i : Nat
  j : Nat
  s1 : Bool
  s2 : Bool

/-- The state `tournament2` threads through its loop: the working game list
and the recorded schedule and dispersion score. -/
structure OptState where
  games : List Game
  sched : Schedule
  diff : Nat

/-- The acceptance test of `tournament2`, evaluated on the already-swapped
game list: `diff2 <= diff and len(players(games[i])) == 4 ==
len(players(games[j])) and len(schedule_games(games, C)) <= len(sched)`. -/
def acceptB (C : Nat) (st : OptState) (ch : Choice) : Bool :=
  let games2 := swapList st.games ch.i ch.j ch.s1 ch.s2
  decide (total_difference games2 ≤ st.diff) &&
  ((playersGame (games2.getD ch.i defaultGame)).card == 4) &&
  ((playersGame (games2.getD ch.j defaultGame)).card == 4) &&
  decide ((schedule_games games2 C).length ≤ st.sched.length)

/-- One iteration of `tournament2`'s loop.  If the recorded state is already
optimal the Python loop returns `sched`; the model makes that state
absorbing, which yields the same final `sched`.  Otherwise swap, test, and
either keep the new state or swap back. -/
def stepOpt (P C : Nat) (st : OptState) (ch : Choice) : OptState :=
  if is_optimal st.sched st.diff P C then st
  else if acceptB C st ch then
    ⟨swapList st.games ch.i ch.j ch.s1 ch.s2,
     schedule_games (swapList st.games ch.i ch.j ch.s1 ch.s2) C,
     total_difference (swapList st.games ch.i ch.j ch.s1 ch.s2)⟩
  else
    ⟨swapList (swapList st.games ch.i ch.j ch.s1 ch.s2) ch.i ch.j ch.s1 ch.s2,
     st.sched, st.diff⟩

/-- Run the optimizer loop over a stream of random draws (one per `try`). -/
def runOpt (P C : Nat) (st : OptState) (chs : List Choice) : OptState :=
  chs.foldl (stepOpt P C) st

/-- `tournament2(P, C, tries)` with the random draws made explicit:
build pairs, games, the initial schedule and dispersion, loop, and return
the recorded schedule.  As in `tournament`, `none` marks the Python crash
on a `None` game list (`total_difference(None)` raises `TypeError`). -/
def tournament2 (P C : Nat) (chs : List Choice) : Option Schedule :=
  (games_from_pairs (all_pairs P)).map fun games =>
    (runOpt P C ⟨games, schedule_games games C, total_difference games⟩ chs).sched

/-- The flattened list of partner pairs of a game list (two per game);
its counts say how often a pair partners across the games. -/
def pairsList (gs : List Game) : List Pair := gs.flatMap fun g => [g.1, g.2]

/-- Claim C1 (code bug): the spec requires `tournament` and `tournament2` to
turn a failed packing (`games_from_pairs` returning its failure value) into
a clear "no packing found" result instead of a crash.  The code has no such
handling: at `P = 3` (a valid input, `P ≥ 2`, `C ≥ 1`) the backtracking
search fails — the three pairs of three players pairwise share a player —
and both entry points pass `None` on to code that raises `TypeError`
(modelled here by the `none` results: there is no handling branch, the
failure simply propagates and the run produces no schedule). -/
theorem tournament_unpackable_crash :
    games_from_pairs (all_pairs 3) = none ∧
    tournament 3 1 = none ∧ tournament2 3 1 [] = none := by
  refine ⟨by decide, by decide, by decide⟩

/-- Claim C7: with a zero iteration budget (an empty stream of random
draws) the optimizer's loop body never runs, so `tournament2(8, 2, tries=0)`
returns exactly the schedule of `tournament(8, 2)`. -/
theorem tournament2_zero_tries_eq_tournament :
    tournament2 8 2 [] = tournament 8 2 := rfl

/-- Claim C9: for every court count `C ≥ 1`, `tournament(2, C)` is the empty
schedule: `all_pairs 2 = [(1, 2)]` and `games_from_pairs` drops the single
pair because fewer than two pairs remain, so nobody plays. -/
theorem tournament_two_players (C : Nat) (hC : 1 ≤ C) :
    tournament 2 C = some [] := rfl

/-- Witness for `tournament_two_players` at `C = 1`. -/
theorem tournament_two_players_witness :
    1 ≤ 1 ∧ tournament 2 1 = some [] :=
  ⟨by decide, tournament_two_players 1 (by decide)⟩

/-- Claim C8, counterexample: `C = 0 < 1` is not rejected.  With `P = 4`,
`tournament(4, 0)` computes and returns an ordinary schedule — all three
games, one per round — neither a failure nor an empty/degenerate result. -/
theorem tournament_court_zero_not_rejected :
    tournament 4 0 =
      some [[((1, 2), (3, 4))], [((1, 3), (2, 4))], [((1, 4), (2, 3))]] ∧
    tournament 4 0 ≠ none ∧ tournament 4 0 ≠ some [] := by
  refine ⟨by decide, by decide, by decide⟩

/-- Claim C8 as amended: only the `P < 2` half of the claim holds.  For
`P < 2` the pair list is empty and `tournament` returns the empty schedule
(a degenerate result) for every `C`; a court count `C < 1` is not rejected
(see `tournament_court_zero_not_rejected`). -/
theorem tournament_small_P_empty (P C : Nat) (hP : P < 2) :
    tournament P C = some [] := by
  match P, hP with
  | 0, _ => rfl
  | 1, _ => rfl

/-- Witness for `tournament_small_P_empty` at `P = 1`, `C = 3`. -/
theorem tournament_small_P_empty_witness :
    1 < 2 ∧ tournament 1 3 = some [] :=
  ⟨by decide, tournament_small_P_empty 1 3 (by decide)⟩

lemma addGame_flatten_perm (C : Nat) (g : Game) :
    ∀ sched : Schedule, (addGame C sched g).flatten.Perm (g :: sched.flatten)
  | [] => by simp [addGame]
  | r :: rs => by
    rw [addGame]
    split
    · simp only [List.flatten_cons, List.append_assoc]
      exact List.perm_middle
    · simp only [List.flatten_cons]
      exact ((addGame_flatten_perm C g rs).append_left r).trans List.perm_middle

lemma schedule_foldl_perm (C : Nat) :
    ∀ (games : List Game) (sched : Schedule),
      (games.foldl (addGame C) sched).flatten.Perm (sched.flatten ++ games)
  | [], sched => by simp
  | g :: gs, sched => by
    simp only [List.foldl_cons]
    exact (schedule_foldl_perm C gs _).trans
      (((addGame_flatten_perm C g sched).append_right gs).trans List.perm_middle.symm)

/-- Claim C5: scheduling is a round-trip — the multiset of games across all
rounds of `schedule_games games C` is exactly the input multiset; no game is
dropped or duplicated. -/
theorem schedule_games_roundtrip (games : List Game) (C : Nat) (hC : 1 ≤ C) :
    (↑(schedule_games games C).flatten : Multiset Game) = ↑games := by
  have h := schedule_foldl_perm C games []
  exact Multiset.coe_eq_coe.mpr (by simpa using h)

/-- Witness for `schedule_games_roundtrip` on two games and one court. -/
theorem schedule_games_roundtrip_witness :
    1 ≤ 1 ∧
    (↑(schedule_games [((1, 2), (3, 4)), ((1, 3), (2, 4))] 1).flatten : Multiset Game) =
      ↑([((1, 2), (3, 4)), ((1, 3), (2, 4))] : List Game) :=
  ⟨by decide, schedule_games_roundtrip [((1, 2), (3, 4)), ((1, 3), (2, 4))] 1 (by decide)⟩

lemma playersGame_subset_playersRound {r : Round} {g : Game} (h : g ∈ r) :
    playersGame g ⊆ playersRound r := by
  induction r with
  | nil => cases h
  | cons a t ih =>
    have : playersRound (a :: t) = playersGame a ∪ playersRound t := rfl
    rw [this]
    rcases List.mem_cons.mp h with rfl | h'
    · exact Finset.subset_union_left
    · exact (ih h').trans Finset.subset_union_right

lemma addGame_rounds_ok (C : Nat) (hC : 1 ≤ C) (g : Game) :
    ∀ sched : Schedule,
      (∀ r ∈ sched, r.length ≤ C ∧
        r.Pairwise fun g1 g2 => playersGame g1 ∩ playersGame g2 = ∅) →
      ∀ r ∈ addGame C sched g, r.length ≤ C ∧
        r.Pairwise fun g1 g2 => playersGame g1 ∩ playersGame g2 = ∅
  | [], _ => by
    intro r hr
    rw [addGame] at hr
    rcases List.mem_singleton.mp hr with rfl
    exact ⟨hC, List.pairwise_singleton _ _⟩
  | r0 :: rs, H => by
    intro r hr
    rw [addGame] at hr
    split at hr
    case isTrue hcond =>
      rcases List.mem_cons.mp hr with rfl | h'
      · obtain ⟨hlen, hpw⟩ := H r0 (List.mem_cons_self r0 rs)
        refine ⟨by simpa using hcond.1, ?_⟩
        rw [List.pairwise_append]
        refine ⟨hpw, List.pairwise_singleton _ _, ?_⟩
        intro a ha b hb
        rcases List.mem_singleton.mp hb with rfl
        have hsub : playersGame a ∩ playersGame b ⊆ playersRound r0 ∩ playersGame b :=
          Finset.inter_subset_inter (playersGame_subset_playersRound ha) le_rfl
        rw [hcond.2] at hsub
        exact Finset.subset_empty.mp hsub
      · exact H r (List.mem_cons_of_mem _ h')
    case isFalse =>
      rcases List.mem_cons.mp hr with rfl | h'
      · exact H r (List.mem_cons_self r rs)
      · exact addGame_rounds_ok C hC g rs
          (fun r' hr' => H r' (List.mem_cons_of_mem _ hr')) r h'

lemma foldl_rounds_ok (C : Nat) (hC : 1 ≤ C) :
    ∀ (games : List Game) (sched : Schedule),
      (∀ r ∈ sched, r.length ≤ C ∧
        r.Pairwise fun g1 g2 => playersGame g1 ∩ playersGame g2 = ∅) →
      ∀ r ∈ games.foldl (addGame C) sched, r.length ≤ C ∧
        r.Pairwise fun g1 g2 => playersGame g1 ∩ playersGame g2 = ∅
  | [], _, H => H
  | g :: gs, sched, H => by
    simp only [List.foldl_cons]
    exact foldl_rounds_ok C hC gs (addGame C sched g) (addGame_rounds_ok C hC g sched H)

/-- Claim C6: every round of `schedule_games games C` (with `C ≥ 1`) holds at
most `C` games, and the player sets of the games within one round are
pairwise disjoint — no player appears in two games of the same round. -/
theorem schedule_games_round_constraints (games : List Game) (C : Nat) (hC : 1 ≤ C) :
    ∀ r ∈ schedule_games games C, r.length ≤ C ∧
      r.Pairwise fun g1 g2 => playersGame g1 ∩ playersGame g2 = ∅ :=
  foldl_rounds_ok C hC games [] (by intro r hr; cases hr)

/-- Witness for `schedule_games_round_constraints`: the first round produced
from two overlapping games on one court. -/
theorem schedule_games_round_constraints_witness :
    1 ≤ 1 ∧
    ([((1, 2), (3, 4))] : Round).length ≤ 1 ∧
    List.Pairwise (fun g1 g2 => playersGame g1 ∩ playersGame g2 = ∅)
      ([((1, 2), (3, 4))] : Round) :=
  ⟨by decide,
   schedule_games_round_constraints [((1, 2), (3, 4)), ((1, 3), (2, 4))] 1 (by decide)
     [((1, 2), (3, 4))] (by decide)⟩

lemma natSum_eq_zero_iff : ∀ l : List Nat, l.sum = 0 ↔ ∀ x ∈ l, x = 0
  | [] => by simp
  | a :: t => by
    simp [List.sum_cons, Nat.add_eq_zero, natSum_eq_zero_iff t]

/-- Claim C3, counterexample to the claim as stated: with two copies of the
same game, the dispersion score is `0` even though players `1` and `2` both
participate and never oppose each other (their opponent count is `0`, not
`2`).  The absent pairing has no entry in the `Counter`, so it contributes
nothing — not `|0 - 2|³ = 8` — to the sum. -/
theorem total_difference_missing_pair_not_penalized :
    total_difference [((1, 2), (3, 4)), ((1, 2), (3, 4))] = 0 ∧
    1 ∈ playersGame ((1, 2), (3, 4)) ∧ 2 ∈ playersGame ((1, 2), (3, 4)) ∧
    (opponents [((1, 2), (3, 4)), ((1, 2), (3, 4))]).count (pairing 1 2) = 0 := by
  refine ⟨by decide, by decide, by decide, by decide⟩

/-- Claim C3 as amended: `total_difference games = 0` iff every pairing that
occurs at least once as an opponent pairing occurs exactly twice.  Pairs of
participants that never meet are absent from the opponent counter and are
not penalized (see `total_difference_missing_pair_not_penalized`). -/
theorem total_difference_eq_zero_iff (games : List Game) :
    total_difference games = 0 ↔
      ∀ q ∈ opponents games, (opponents games).count q = 2 := by
  unfold total_difference
  rw [natSum_eq_zero_iff]
  constructor
  · intro h q hq
    have h1 := h _ (List.mem_map_of_mem _ (List.mem_dedup.mpr hq))
    have h2 : Int.natAbs (((opponents games).count q : Int) - 2) = 0 :=
      pow_eq_zero_iff (by norm_num) |>.mp h1
    omega
  · intro h x hx
    obtain ⟨q, hq, rfl⟩ := List.mem_map.mp hx
    have := h q (List.mem_dedup.mp hq)
    simp [this]

section SwapLemmas

variable {α : Type _}

lemma getD_set_self (l : List α) (i : Nat) (a d : α) (h : i < l.length) :
    (l.set i a).getD i d = a := by
  simp [List.getD_eq_getElem?_getD, List.getElem?_set_self h]

lemma getD_set_ne (l : List α) {i j : Nat} (h : i ≠ j) (a d : α) :
    (l.set i a).getD j d = l.getD j d := by
  simp [List.getD_eq_getElem?_getD, List.getElem?_set_ne h]

lemma set_getD_self (d : α) :
    ∀ (l : List α) (i : Nat), i < l.length → l.set i (l.getD i d) = l
  | _ :: _, 0, _ => rfl
  | a :: t, i + 1, h =>
    congrArg (a :: ·) (set_getD_self d t i (Nat.lt_of_succ_lt_succ h))

lemma set_set_unset (d : α) (l : List α) {i j : Nat} (hij : i ≠ j)
    (hi : i < l.length) (hj : j < l.length) (a b : α) :
    (((l.set i a).set j b).set i (l.getD i d)).set j (l.getD j d) = l := by
  rw [List.set_comm b (l.getD i d) (l.set i a) (Ne.symm hij)]
  simp only [List.set_set]
  rw [set_getD_self d l i hi, set_getD_self d l j hj]

end SwapLemmas

lemma getSide_setSide (g : Game) (s : Bool) (p : Pair) :
    getSide (setSide g s p) s = p := by
  cases s <;> simp [getSide, setSide]

lemma setSide_setSide (g : Game) (s : Bool) (p q : Pair) :
    setSide (setSide g s p) s q = setSide g s q := by
  cases s <;> simp [setSide]

lemma setSide_getSide (g : Game) (s : Bool) :
    setSide g s (getSide g s) = g := by
  cases s <;> simp [getSide, setSide]

lemma swapList_length (games : List Game) (i j : Nat) (s1 s2 : Bool) :
    (swapList games i j s1 s2).length = games.length := by
  simp [swapList]

lemma swapList_involution (games : List Game) (i j : Nat) (s1 s2 : Bool)
    (hij : i ≠ j) (hi : i < games.length) (hj : j < games.length) :
    swapList (swapList games i j s1 s2) i j s1 s2 = games := by
  have hji : j ≠ i := Ne.symm hij
  simp only [swapList, getD_set_ne games hij]
  generalize hgi : games.getD i defaultGame = gi
  generalize hgj : games.getD j defaultGame = gj
  have hjlen : j < (games.set i (setSide gi s1 (getSide gj s2))).length := by
    simpa using hj
  have h1 : ((games.set i (setSide gi s1 (getSide gj s2))).set j
      (setSide gj s2 (getSide gi s1))).getD j defaultGame =
      setSide gj s2 (getSide gi s1) := getD_set_self _ _ _ _ hjlen
  have h2 : ((games.set i (setSide gi s1 (getSide gj s2))).set j
      (setSide gj s2 (getSide gi s1))).getD i defaultGame =
      setSide gi s1 (getSide gj s2) := by
    rw [getD_set_ne _ hji, getD_set_self _ _ _ _ hi]
  rw [h1, h2]
  simp only [getSide_setSide, setSide_setSide, setSide_getSide]
  rw [getD_set_ne _ hij, h1]
  simp only [setSide_setSide, setSide_getSide]
  rw [← hgi, ← hgj]
  exact set_set_unset defaultGame games hij hi hj _ _

lemma acceptB_eq_true (C : Nat) (st : OptState) (ch : Choice) :
    acceptB C st ch = true ↔
      total_difference (swapList st.games ch.i ch.j ch.s1 ch.s2) ≤ st.diff ∧
      (playersGame ((swapList st.games ch.i ch.j ch.s1 ch.s2).getD ch.i defaultGame)).card = 4 ∧
      (playersGame ((swapList st.games ch.i ch.j ch.s1 ch.s2).getD ch.j defaultGame)).card = 4 ∧
      (schedule_games (swapList st.games ch.i ch.j ch.s1 ch.s2) C).length ≤ st.sched.length := by
  simp [acceptB, Bool.and_eq_true, and_assoc]

lemma stepOpt_diff_le (P C : Nat) (st : OptState) (ch : Choice) :
    (stepOpt P C st ch).diff ≤ st.diff := by
  unfold stepOpt
  split
  · exact le_rfl
  · split
    · rename_i hacc
      exact ((acceptB_eq_true C st ch).mp hacc).1
    · exact le_rfl

lemma stepOpt_sched_le (P C : Nat) (st : OptState) (ch : Choice) :
    (stepOpt P C st ch).sched.length ≤ st.sched.length := by
  unfold stepOpt
  split
  · exact le_rfl
  · split
    · rename_i hacc
      exact ((acceptB_eq_true C st ch).mp hacc).2.2.2
    · exact le_rfl

lemma runOpt_diff_le (P C : Nat) :
    ∀ (chs : List Choice) (st : OptState), (runOpt P C st chs).diff ≤ st.diff
  | [], _ => le_rfl
  | ch :: chs, st =>
    le_trans (runOpt_diff_le P C chs (stepOpt P C st ch)) (stepOpt_diff_le P C st ch)

lemma runOpt_sched_le (P C : Nat) :
    ∀ (chs : List Choice) (st : OptState),
      (runOpt P C st chs).sched.length ≤ st.sched.length
  | [], _ => le_rfl
  | ch :: chs, st =>
    le_trans (runOpt_sched_le P C chs (stepOpt P C st ch)) (stepOpt_sched_le P C st ch)

lemma stepOpt_games_length (P C : Nat) (st : OptState) (ch : Choice) :
    (stepOpt P C st ch).games.length = st.games.length := by
  unfold stepOpt
  split
  · rfl
  · split <;> simp [swapList_length]

/-- Claim C4: across `tournament2`'s iterations the recorded state never
worsens — each iteration (and hence any run of iterations) leaves the stored
dispersion `diff` and the stored round count `len(sched)` less than or equal
to their previous values; and whenever the loop body actually runs (the
recorded state is not yet optimal), the swap is kept exactly when the new
dispersion is `≤` the old, both affected games still have 4 distinct
players, and the re-scheduled round count does not increase (`acceptB`,
the code's acceptance test), and otherwise the swap is exactly undone,
restoring the previous state. -/
theorem tournament2_monotone_accept (P C : Nat) (st : OptState) (ch : Choice)
    (hij : ch.i ≠ ch.j) (hi : ch.i < st.games.length) (hj : ch.j < st.games.length) :
    (stepOpt P C st ch).diff ≤ st.diff ∧
    (stepOpt P C st ch).sched.length ≤ st.sched.length ∧
    (∀ chs : List Choice,
      (runOpt P C st chs).diff ≤ st.diff ∧
      (runOpt P C st chs).sched.length ≤ st.sched.length) ∧
    (is_optimal st.sched st.diff P C = false →
      (acceptB C st ch = true →
        stepOpt P C st ch =
          ⟨swapList st.games ch.i ch.j ch.s1 ch.s2,
           schedule_games (swapList st.games ch.i ch.j ch.s1 ch.s2) C,
           total_difference (swapList st.games ch.i ch.j ch.s1 ch.s2)⟩) ∧
      (acceptB C st ch = false → stepOpt P C st ch = st)) := by
  refine ⟨stepOpt_diff_le P C st ch, stepOpt_sched_le P C st ch,
    fun chs => ⟨runOpt_diff_le P C chs st, runOpt_sched_le P C chs st⟩,
    fun hopt => ⟨fun hacc => ?_, fun hacc => ?_⟩⟩
  · simp only [stepOpt, hopt, hacc, Bool.false_eq_true, if_false, if_true]
  · simp only [stepOpt, hopt, hacc, Bool.false_eq_true, if_false]
    rw [swapList_involution st.games ch.i ch.j ch.s1 ch.s2 hij hi hj]

/-- Witness for `tournament2_monotone_accept` on a concrete two-game state. -/
theorem tournament2_monotone_accept_witness :
    ((0 : Nat) ≠ 1 ∧ 0 < 2 ∧ 1 < 2) ∧
    (stepOpt 8 2
        ⟨[((1, 2), (3, 4)), ((5, 6), (7, 8))],
         [[((1, 2), (3, 4)), ((5, 6), (7, 8))]], 8⟩
        ⟨0, 1, false, false⟩).diff ≤ 8 :=
  ⟨⟨by decide, by decide, by decide⟩,
   (tournament2_monotone_accept 8 2
      ⟨[((1, 2), (3, 4)), ((5, 6), (7, 8))],
       [[((1, 2), (3, 4)), ((5, 6), (7, 8))]], 8⟩
      ⟨0, 1, false, false⟩ (by decide) (by decide) (by decide)).1⟩

lemma perm_append_pair {α : Type _} (l : List α) (a b : α) :
    (l ++ [a, b]).Perm (a :: b :: l) := by
  have h1 : (l ++ [a, b]).Perm (a :: (l ++ [b])) := List.perm_middle
  have h2 : (l ++ [b]).Perm (b :: l) := by
    have h3 := (List.perm_middle : (l ++ b :: []).Perm (b :: (l ++ [])))
    rw [List.append_nil] at h3
    exact h3
  exact h1.trans (h2.cons a)

lemma pairsList_set_perm :
    ∀ (gs : List Game) (i : Nat) (x : Game), i < gs.length →
      (pairsList (gs.set i x) ++
          [(gs.getD i defaultGame).1, (gs.getD i defaultGame).2]).Perm
        (pairsList gs ++ [x.1, x.2])
  | [], _, _, h => absurd h (by simp)
  | g :: t, 0, x, _ => by
      show ((x.1 :: x.2 :: pairsList t) ++ [g.1, g.2]).Perm
        ((g.1 :: g.2 :: pairsList t) ++ [x.1, x.2])
      have step1 : (pairsList t ++ [g.1, g.2]).Perm (g.1 :: g.2 :: pairsList t) :=
        perm_append_pair (pairsList t) g.1 g.2
      exact ((step1.cons x.2).cons x.1).trans
        (perm_append_pair (g.1 :: g.2 :: pairsList t) x.1 x.2).symm
  | g :: t, i + 1, x, h => by
      show (g.1 :: g.2 :: (pairsList (t.set i x) ++
          [(t.getD i defaultGame).1, (t.getD i defaultGame).2])).Perm
        (g.1 :: g.2 :: (pairsList t ++ [x.1, x.2]))
      exact ((pairsList_set_perm t i x (Nat.lt_of_succ_lt_succ h)).cons g.2).cons g.1

lemma pairsList_set_multiset (gs : List Game) (i : Nat) (x : Game)
    (h : i < gs.length) :
    (↑(pairsList (gs.set i x)) : Multiset Pair) +
        ↑[(gs.getD i defaultGame).1, (gs.getD i defaultGame).2] =
      ↑(pairsList gs) + ↑[x.1, x.2] := by
  rw [Multiset.coe_add, Multiset.coe_add]
  exact Multiset.coe_eq_coe.mpr (pairsList_set_perm gs i x h)

lemma setSide_pairs_balance (gi gj : Game) (s1 s2 : Bool) :
    (↑[(setSide gi s1 (getSide gj s2)).1, (setSide gi s1 (getSide gj s2)).2] :
        Multiset Pair) +
      ↑[(setSide gj s2 (getSide gi s1)).1, (setSide gj s2 (getSide gi s1)).2] =
    ↑[gi.1, gi.2] + ↑[gj.1, gj.2] := by
  cases s1 <;> cases s2 <;>
    · simp only [getSide, setSide, Bool.false_eq_true, if_false, if_true]
      refine Multiset.ext.mpr fun a => ?_
      simp only [Multiset.count_add, Multiset.coe_count, List.count_cons,
        List.count_nil, beq_iff_eq]
      split_ifs <;> omega

/-- The random swap rearranges whole pairs between two games: the multiset
of partner pairs of the game list is unchanged. -/
lemma swapList_pairs (games : List Game) (i j : Nat) (s1 s2 : Bool)
    (hij : i ≠ j) (hi : i < games.length) (hj : j < games.length) :
    (↑(pairsList (swapList games i j s1 s2)) : Multiset Pair) =
      ↑(pairsList games) := by
  have hswap : swapList games i j s1 s2 =
      (games.set i (setSide (games.getD i defaultGame) s1
          (getSide (games.getD j defaultGame) s2))).set j
        (setSide (games.getD j defaultGame) s2
          (getSide (games.getD i defaultGame) s1)) := by
    simp only [swapList, getD_set_ne games hij]
  have hj1 : j < (games.set i (setSide (games.getD i defaultGame) s1
      (getSide (games.getD j defaultGame) s2))).length := by simpa using hj
  have e1 := pairsList_set_multiset games i
    (setSide (games.getD i defaultGame) s1
      (getSide (games.getD j defaultGame) s2)) hi
  have e2 := pairsList_set_multiset
    (games.set i (setSide (games.getD i defaultGame) s1
      (getSide (games.getD j defaultGame) s2))) j
    (setSide (games.getD j defaultGame) s2
      (getSide (games.getD i defaultGame) s1)) hj1
  rw [getD_set_ne games hij] at e2
  have side := setSide_pairs_balance (games.getD i defaultGame)
    (games.getD j defaultGame) s1 s2
  rw [hswap]
  refine Multiset.ext.mpr fun a => ?_
  have c1 := congrArg (Multiset.count a) e1
  have c2 := congrArg (Multiset.count a) e2
  have c3 := congrArg (Multiset.count a) side
  simp only [Multiset.count_add] at c1 c2 c3
  omega

lemma stepOpt_pairs (P C : Nat) (st : OptState) (ch : Choice)
    (hij : ch.i ≠ ch.j) (hi : ch.i < st.games.length) (hj : ch.j < st.games.length) :
    (↑(pairsList (stepOpt P C st ch).games) : Multiset Pair) =
      ↑(pairsList st.games) := by
  unfold stepOpt
  split
  · rfl
  · split
    · exact swapList_pairs st.games ch.i ch.j ch.s1 ch.s2 hij hi hj
    · show (↑(pairsList (swapList (swapList st.games ch.i ch.j ch.s1 ch.s2)
          ch.i ch.j ch.s1 ch.s2)) : Multiset Pair) = ↑(pairsList st.games)
      rw [swapList_involution st.games ch.i ch.j ch.s1 ch.s2 hij hi hj]

lemma runOpt_pairs (P C : Nat) :
    ∀ (chs : List Choice) (st : OptState),
      (∀ c ∈ chs, c.i ≠ c.j ∧ c.i < st.games.length ∧ c.j < st.games.length) →
      (↑(pairsList (runOpt P C st chs).games) : Multiset Pair) =
        ↑(pairsList st.games)
  | [], _, _ => rfl
  | ch :: chs, st, H => by
    have h0 := H ch (List.mem_cons_self ch chs)
    have hrest : ∀ c ∈ chs, c.i ≠ c.j ∧
        c.i < (stepOpt P C st ch).games.length ∧
        c.j < (stepOpt P C st ch).games.length := by
      intro c hc
      have := H c (List.mem_cons_of_mem ch hc)
      rwa [stepOpt_games_length]
    exact (runOpt_pairs P C chs (stepOpt P C st ch) hrest).trans
      (stepOpt_pairs P C st ch h0.1 h0.2.1 h0.2.2)

/-- Claim C10: the optimizer never changes who partners with whom.  A swap
exchanges whole pairs between two games, so it preserves the multiset of
partner pairs of the working game list; a rejected swap is undone by the
same swap, so one loop iteration — and any run of iterations with valid
index draws — leaves the partner-pair multiset exactly as it started. -/
theorem tournament2_preserves_partner_pairs (P C : Nat) (st : OptState)
    (ch : Choice) (hij : ch.i ≠ ch.j) (hi : ch.i < st.games.length)
    (hj : ch.j < st.games.length) :
    (↑(pairsList (swapList st.games ch.i ch.j ch.s1 ch.s2)) : Multiset Pair) =
      ↑(pairsList st.games) ∧
    (↑(pairsList (stepOpt P C st ch).games) : Multiset Pair) =
      ↑(pairsList st.games) ∧
    (∀ chs : List Choice,
      (∀ c ∈ chs, c.i ≠ c.j ∧ c.i < st.games.length ∧ c.j < st.games.length) →
      (↑(pairsList (runOpt P C st chs).games) : Multiset Pair) =
        ↑(pairsList st.games)) :=
  ⟨swapList_pairs st.games ch.i ch.j ch.s1 ch.s2 hij hi hj,
   stepOpt_pairs P C st ch hij hi hj,
   fun chs H => runOpt_pairs P C chs st H⟩

/-- Witness for `tournament2_preserves_partner_pairs` on two concrete games. -/
theorem tournament2_preserves_partner_pairs_witness :
    ((0 : Nat) ≠ 1 ∧ 0 < 2 ∧ 1 < 2) ∧
    (↑(pairsList (swapList [((1, 2), (3, 4)), ((5, 6), (7, 8))] 0 1 false false)) :
        Multiset Pair) =
      ↑(pairsList [((1, 2), (3, 4)), ((5, 6), (7, 8))]) :=
  ⟨⟨by decide, by decide, by decide⟩,
   (tournament2_preserves_partner_pairs 8 2
      ⟨[((1, 2), (3, 4)), ((5, 6), (7, 8))],
       [[((1, 2), (3, 4)), ((5, 6), (7, 8))]], 8⟩
      ⟨0, 1, false, false⟩ (by decide) (by decide) (by decide)).1⟩

lemma pset_card_le_two (p : Pair) : (pset p).card ≤ 2 := by
  classical
  exact (Finset.card_insert_le p.1 {p.2}).trans (by simp)

lemma ne_of_num_players2_eq_four {p q : Pair} (h : num_players2 p q = 4) :
    p ≠ q := by
  rintro rfl
  rw [num_players2, Finset.union_self] at h
  have := pset_card_le_two p
  omega

lemma gfpAux_nil (fuel : Nat) : gfpAux fuel [] = some [] := by
  cases fuel <;> rfl

lemma gfpAux_single (fuel : Nat) (p : Pair) : gfpAux fuel [p] = some [] := by
  cases fuel <;> rfl

lemma count_eq_one_of_nodup_mem {α : Type _} [BEq α] [LawfulBEq α]
    {l : List α} {a : α} (hnd : l.Nodup) (ha : a ∈ l) : l.count a = 1 := by
  induction l with
  | nil => cases ha
  | cons b t ih =>
    obtain ⟨hbt, hndt⟩ := List.nodup_cons.mp hnd
    rw [List.count_cons]
    rcases List.mem_cons.mp ha with rfl | h'
    · rw [List.count_eq_zero.mpr hbt]
      simp
    · have hba : (b == a) = false := by
        refine beq_eq_false_iff_ne.mpr ?_
        rintro rfl
        exact hbt h'
      rw [ih hndt h', hba]
      simp

lemma perm_cons_filter_ne {α : Type _} [BEq α] [LawfulBEq α] :
    ∀ l : List α, l.Nodup → ∀ a ∈ l, l.Perm (a :: l.filter fun p => !(p == a))
  | [], _, a, ha => absurd ha (by simp)
  | c :: t, hnd, a, ha => by
    obtain ⟨hct, hndt⟩ := List.nodup_cons.mp hnd
    rcases List.mem_cons.mp ha with rfl | h'
    · rw [List.filter_cons, if_neg (by simp)]
      have hfix : t.filter (fun p => !(p == a)) = t :=
        List.filter_eq_self.mpr fun x hx => by
          simp only [Bool.not_eq_eq_eq_not, Bool.not_true, beq_eq_false_iff_ne]
          rintro rfl
          exact hct hx
      rw [hfix]
    · have hca : (c == a) = false := by
        refine beq_eq_false_iff_ne.mpr ?_
        rintro rfl
        exact hct h'
      rw [List.filter_cons, if_pos (by simp [hca])]
      refine ((perm_cons_filter_ne t hndt a h').cons c).trans ?_
      exact List.Perm.swap a c _

lemma perm_cons_cons_filter (l : List Pair) (a b : Pair) (hnd : l.Nodup)
    (ha : a ∈ l) (hb : b ∈ l) (hab : a ≠ b) :
    l.Perm (a :: b :: l.filter fun p => !(p == a) && !(p == b)) := by
  have h1 := perm_cons_filter_ne l hnd a ha
  have hndF : (l.filter fun p => !(p == a)).Nodup := hnd.filter _
  have hbF : b ∈ l.filter fun p => !(p == a) := by
    refine List.mem_filter.mpr ⟨hb, ?_⟩
    simp only [Bool.not_eq_eq_eq_not, Bool.not_true, beq_eq_false_iff_ne]
    exact Ne.symm hab
  have h2 := perm_cons_filter_ne _ hndF b hbF
  have h3 : (l.filter fun p => !(p == a)).filter (fun p => !(p == b)) =
      l.filter fun p => !(p == a) && !(p == b) := by
    rw [List.filter_filter]
    exact List.filter_congr fun x _ => by rw [Bool.and_comm]
  rw [h3] at h2
  exact h1.trans (h2.cons a)

/-- When the backtracking succeeds, the games consume the input pairs
exactly: together with a leftover of `length % 2` pairs (`0` or `1`), their
partner pairs are a permutation of the input. -/
lemma gfpAux_partition :
    ∀ (fuel : Nat) (pairs : List Pair) (gs : List Game),
      pairs.length ≤ fuel → pairs.Nodup → gfpAux fuel pairs = some gs →
      ∃ rest : List Pair, (pairsList gs ++ rest).Perm pairs ∧
        rest.length = pairs.length % 2
  | fuel, [], gs, _, _, h => by
    rw [gfpAux_nil] at h
    cases h
    exact ⟨[], by simp [pairsList], by simp⟩
  | fuel, [p], gs, _, _, h => by
    rw [gfpAux_single] at h
    cases h
    exact ⟨[p], by simp [pairsList], by simp⟩
  | 0, p1 :: p2 :: t, gs, hlen, _, _ => by
    simp at hlen
  | fuel + 1, p1 :: p2 :: t, gs, hlen, hnd, h => by
    rw [show gfpAux (fuel + 1) (p1 :: p2 :: t) =
        (p1 :: p2 :: t).findSome? (fun pair2 =>
          if num_players2 p1 pair2 = 4 then
            (gfpAux fuel ((p1 :: p2 :: t).filter
                fun p => !(p == p1) && !(p == pair2))).map
              fun gs => ((p1, pair2) : Game) :: gs
          else none) from rfl] at h
    obtain ⟨pair2, hmem, hfs⟩ := List.exists_of_findSome?_eq_some h
    by_cases hc : num_players2 p1 pair2 = 4
    · rw [if_pos hc] at hfs
      obtain ⟨gs', hrec, rfl⟩ := Option.map_eq_some'.mp hfs
      have hne : p1 ≠ pair2 := ne_of_num_players2_eq_four hc
      have hperm := perm_cons_cons_filter (p1 :: p2 :: t) p1 pair2 hnd
        (List.mem_cons_self p1 _) hmem hne
      have hlf : ((p1 :: p2 :: t).filter
          fun p => !(p == p1) && !(p == pair2)).length = t.length := by
        have hle := hperm.length_eq
        simp only [List.length_cons] at hle
        omega
      obtain ⟨rest, hr1, hr2⟩ := gfpAux_partition fuel
        ((p1 :: p2 :: t).filter fun p => !(p == p1) && !(p == pair2)) gs'
        (by simp only [List.length_cons] at hlen; omega)
        (hnd.filter _) hrec
      refine ⟨rest, ?_, ?_⟩
      · show (p1 :: pair2 :: (pairsList gs' ++ rest)).Perm (p1 :: p2 :: t)
        exact (((hr1.cons pair2).cons p1).trans hperm.symm)
      · rw [hr2, hlf]
        simp only [List.length_cons]
        omega
    · rw [if_neg hc] at hfs
      cases hfs

lemma games_from_pairs_partition (pairs : List Pair) (gs : List Game)
    (hnd : pairs.Nodup) (h : games_from_pairs pairs = some gs) :
    ∃ rest : List Pair, (pairsList gs ++ rest).Perm pairs ∧
      rest.length = pairs.length % 2 :=
  gfpAux_partition pairs.length pairs gs le_rfl hnd h

lemma mem_all_pairs {P : Nat} {q : Pair} :
    q ∈ all_pairs P ↔ 1 ≤ q.1 ∧ q.1 < q.2 ∧ q.2 ≤ P := by
  obtain ⟨i, j⟩ := q
  constructor
  · intro hmem
    simp only [all_pairs, List.mem_flatMap, List.mem_map] at hmem
    obtain ⟨a, ha, m, hm, heq⟩ := hmem
    obtain ⟨k, hk, rfl⟩ := List.mem_range'.mp ha
    obtain ⟨k2, hk2, rfl⟩ := List.mem_range'.mp hm
    injection heq with e1 e2
    subst e1
    subst e2
    dsimp only
    refine ⟨by omega, by omega, by omega⟩
  · rintro ⟨h1, h2, h3⟩
    dsimp only at h1 h2 h3
    simp only [all_pairs, List.mem_flatMap, List.mem_map]
    exact ⟨i, List.mem_range'.mpr ⟨i - 1, by omega, by omega⟩,
      j, List.mem_range'.mpr ⟨j - (i + 1), by omega, by omega⟩, rfl⟩

lemma nodup_all_pairs (P : Nat) : (all_pairs P).Nodup := by
  rw [all_pairs, List.nodup_flatMap]
  constructor
  · intro i _
    refine (List.nodup_range' (i + 1) (P - i)).map ?_
    intro a b hab
    simpa using hab
  · have hnd := List.nodup_range' 1 P
    refine hnd.imp ?_
    intro a b hab x hxa hxb
    obtain ⟨ma, _, rfl⟩ := List.mem_map.mp hxa
    obtain ⟨mb, _, hmb⟩ := List.mem_map.mp hxb
    exact hab (by simpa using congrArg Prod.fst hmb.symm)

lemma sum_map_shift (P : Nat) :
    ∀ l : List Nat, (∀ i ∈ l, i ≤ P) →
      (l.map fun i => P + 1 - i).sum = (l.map fun i => P - i).sum + l.length
  | [], _ => by simp
  | a :: t, H => by
    have ha := H a (List.mem_cons_self a t)
    have ht := sum_map_shift P t fun i hi => H i (List.mem_cons_of_mem a hi)
    simp only [List.map_cons, List.sum_cons, List.length_cons, ht]
    omega

lemma sum_range'_sub : ∀ P : Nat,
    ((List.range' 1 P).map fun i => P - i).sum * 2 = P * (P - 1)
  | 0 => rfl
  | P + 1 => by
    rw [List.range'_1_concat, List.map_append, List.sum_append]
    rw [sum_map_shift P (List.range' 1 P) (by
      intro i hi
      obtain ⟨k, hk, rfl⟩ := List.mem_range'.mp hi
      omega)]
    have IH := sum_range'_sub P
    simp only [List.map_cons, List.map_nil, List.sum_cons, List.sum_nil,
      List.length_range']
    cases P with
    | zero => rfl
    | succ n =>
      have hIH : ((List.range' 1 (n + 1)).map fun i => n + 1 - i).sum * 2 =
          (n + 1) * n := by simpa using IH
      calc (((List.range' 1 (n + 1)).map fun i => n + 1 - i).sum + (n + 1) +
            (n + 1 + 1 - (1 + (n + 1)) + 0)) * 2
          = ((List.range' 1 (n + 1)).map fun i => n + 1 - i).sum * 2 +
            (n + 1) * 2 := by omega
        _ = (n + 1) * n + (n + 1) * 2 := by rw [hIH]
        _ = (n + 1 + 1) * (n + 1 + 1 - 1) := by
          have he : n + 1 + 1 - 1 = n + 1 := rfl
          rw [he]
          ring

lemma length_all_pairs (P : Nat) : (all_pairs P).length * 2 = P * (P - 1) := by
  have h1 : (all_pairs P).length = ((List.range' 1 P).map fun i => P - i).sum := by
    rw [all_pairs, List.flatMap_def, List.length_flatten, List.map_map]
    congr 1
    refine List.map_congr_left fun i _ => ?_
    simp
  rw [h1, sum_range'_sub]

/-- Claim C2, counterexample to the claim as stated at `P = 3`: since
`3·2 = 6` is not divisible by 4 the claim promises a game list omitting
exactly one pair, but `games_from_pairs(all_pairs(3))` produces no game
list at all — all three pairs of three players share a player pairwise, so
the backtracking search fails and returns its failure value. -/
theorem games_from_pairs_three_players_no_list :
    games_from_pairs (all_pairs 3) = none ∧ ¬ 4 ∣ 3 * (3 - 1) := by
  refine ⟨by decide, by decide⟩

/-- Claim C2 as amended: for every `P ≥ 2` for which `games_from_pairs`
succeeds on `all_pairs P` (it fails only at `P = 3`): when `P·(P−1)` is
divisible by 4, every unordered pair of distinct players of `1..P` occurs
as a partner pair in exactly one game; otherwise exactly one such pair is
omitted and every other occurs exactly once. -/
theorem games_from_pairs_partner_coverage (P : Nat) (gs : List Game)
    (hP : 2 ≤ P) (h : games_from_pairs (all_pairs P) = some gs) :
    (4 ∣ P * (P - 1) →
      ∀ i j, 1 ≤ i → i < j → j ≤ P → (pairsList gs).count (i, j) = 1) ∧
    (¬ 4 ∣ P * (P - 1) →
      ∃ a b, 1 ≤ a ∧ a < b ∧ b ≤ P ∧ (pairsList gs).count (a, b) = 0 ∧
        ∀ i j, 1 ≤ i → i < j → j ≤ P → (i, j) ≠ (a, b) →
          (pairsList gs).count (i, j) = 1) := by
  obtain ⟨rest, hperm, hlen⟩ :=
    games_from_pairs_partition (all_pairs P) gs (nodup_all_pairs P) h
  have h2L := length_all_pairs P
  constructor
  · intro hdvd i j h1 h2 h3
    have heven : (all_pairs P).length % 2 = 0 := by
      generalize hM : P * (P - 1) = M at h2L hdvd
      omega
    have hrest0 : rest = [] := List.eq_nil_of_length_eq_zero (by omega)
    subst hrest0
    rw [List.append_nil] at hperm
    have hcnt : (pairsList gs).count (i, j) = (all_pairs P).count (i, j) :=
      hperm.countP_eq _
    rw [hcnt]
    exact count_eq_one_of_nodup_mem (nodup_all_pairs P)
      (mem_all_pairs.mpr ⟨h1, h2, h3⟩)
  · intro hndvd
    have hodd : (all_pairs P).length % 2 = 1 := by
      generalize hM : P * (P - 1) = M at h2L hndvd
      omega
    obtain ⟨q, rfl⟩ := List.length_eq_one.mp (show rest.length = 1 by omega)
    have hqmem : q ∈ all_pairs P := by
      refine hperm.mem_iff.mp ?_
      simp
    obtain ⟨hb1, hb2, hb3⟩ := mem_all_pairs.mp hqmem
    refine ⟨q.1, q.2, hb1, hb2, hb3, ?_, ?_⟩
    · have hcnt : (pairsList gs ++ [q]).count (q.1, q.2) =
          (all_pairs P).count (q.1, q.2) := hperm.countP_eq _
      rw [List.count_append] at hcnt
      have h1 : List.count (q.1, q.2) [q] = 1 := by
        simp [List.count_cons]
      have h2 : (all_pairs P).count (q.1, q.2) = 1 := by
        refine count_eq_one_of_nodup_mem (nodup_all_pairs P) ?_
        simpa using hqmem
      omega
    · intro i j h1 h2 h3 hne
      have hcnt : (pairsList gs ++ [q]).count (i, j) =
          (all_pairs P).count (i, j) := hperm.countP_eq _
      rw [List.count_append] at hcnt
      have hz : List.count (i, j) [q] = 0 := by
        refine List.count_eq_zero.mpr ?_
        intro hm
        rcases List.mem_singleton.mp hm with rfl
        exact hne rfl
      have h4 : (all_pairs P).count (i, j) = 1 :=
        count_eq_one_of_nodup_mem (nodup_all_pairs P)
          (mem_all_pairs.mpr ⟨h1, h2, h3⟩)
      omega

/-- Witness for `games_from_pairs_partner_coverage` at `P = 4`. -/
theorem games_from_pairs_partner_coverage_witness :
    2 ≤ 4 ∧
    games_from_pairs (all_pairs 4) =
      some [((1, 2), (3, 4)), ((1, 3), (2, 4)), ((1, 4), (2, 3))] ∧
    (pairsList [((1, 2), (3, 4)), ((1, 3), (2, 4)), ((1, 4), (2, 3))]).count
      (1, 2) = 1 :=
  ⟨by decide, by decide,
   (games_from_pairs_partner_coverage 4
      [((1, 2), (3, 4)), ((1, 3), (2, 4)), ((1, 4), (2, 3))]
      (by decide) (by decide)).1 (by decide) 1 2
     (by decide) (by decide) (by decide)⟩

end Pickleball
